import Mathlib

/-!
# Session cleaner and service-time limiter

A shallow embedding of `5-session-cleaner/main.go` (the `SessionManager`, its
three operations and the `SessionCleaner` goroutine) and of
`3-limit-service-time/main.go` (`HandleRequest`).

Modelling conventions for the session cleaner:

* `m.sessions` is a `map[string]*Session`.  Pointers are addresses into an
  append-only heap of `Session` objects; the table maps an id to an address.
  Dereferencing an address that holds no object is a runtime panic, modelled
  by the result `none`.
* `mu` makes every lock-delimited block one atomic step.  `SessionCleaner` is
  a goroutine whose control point is recorded in `PC`; each of its steps is
  one block of the source between two lock boundaries.
* `wg` is the global `sync.WaitGroup`, a counter that panics when it would go
  negative.
* `MakeSessionID` is not part of the file; its result `(string, error)` is an
  argument of `CreateSession`.
-/

/-- Go `int` addition, 64-bit two's complement. -/
def addInt64 (x y : Int) : Int :=
  (x + y + 9223372036854775808) % 18446744073709551616 - 9223372036854775808

namespace SessionCleaner

/-- Expiry threshold: `const MAX_TIME = 5`. -/
def MAX_TIME : Int := 5

/-- Values stored under `interface{}`. -/
inductive Value where
  | str (s : String)
  | num (n : Int)
  | null
  deriving DecidableEq, Repr

/-- A Go `map[string]interface{}`: `none` is the nil map. -/
abbrev GoMap := Option (AList (fun _ : String => Value))

/-- A Go `error` value other than nil. -/
inductive Error where
  | ErrSessionNotFound
  | other (msg : String)
  deriving DecidableEq, Repr

export Error (ErrSessionNotFound)

/-- Session stores the session's data. -/
structure Session where
  Data : GoMap
  totalTimePerSession : Int
  deriving DecidableEq

/-- SessionManager keeps track of all sessions: `sessions map[string]*Session`. -/
structure SessionManager where
  sessions : AList (fun _ : String => Nat)
  deriving DecidableEq

/-- Control point of one `SessionCleaner` goroutine. -/
inductive PC where
  /-- At the top of the loop, before the locked lookup of `m.sessions[sID]`. -/
  | lookup
  /-- Holding `currSession`, blocked on `<-tick` before the locked increment. -/
  | tick (currSession : Nat)
  /-- Before the comparison `currSession.totalTimePerSession >= MAX_TIME`. -/
  | compare (currSession : Nat)
  /-- The comparison succeeded; before the locked `delete(m.sessions, sID)`. -/
  | delete
  /-- Returned; the deferred `wg.Done()` has run. -/
  | done
  deriving DecidableEq, Repr

/-- One running `go m.SessionCleaner(sID)`. -/
structure Cleaner where
  sID : String
  pc : PC
  deriving DecidableEq

/-- The state of the program: the `Session` objects, the manager `m`, the
wait group `wg` and the spawned cleaner goroutines. -/
structure World where
  heap : List Session
  m : SessionManager
  wg : Int
  cleaners : List Cleaner
  deriving DecidableEq

/-- NewSessionManager creates a new sessionManager, in a program with no
session object, a zero wait group and no goroutine. -/
def NewSessionManager : World :=
  { heap := [], m := { sessions := ∅ }, wg := 0, cleaners := [] }

/-- The call `wg.Add(delta)`: panics when the counter goes negative. -/
def wgAdd (wg delta : Int) : Option Int :=
  if wg + delta < 0 then none else some (wg + delta)

/-- The call `wg.Done()`, which is `wg.Add(-1)`. -/
def wgDone (wg : Int) : Option Int := wgAdd wg (-1)

/-- CreateSession creates a new session and returns the sessionID.
`gen` is the result of `MakeSessionID()`. -/
def CreateSession (w : World) (gen : String × Option Error) :
    Option ((String × Option Error) × World) :=
  match gen.2 with
  | some err => some (("", some err), w)
  | none =>
    match wgAdd w.wg 1 with
    | none => none
    | some wg1 =>
      some ((gen.1, none),
        { heap := w.heap ++ [{ Data := some ∅, totalTimePerSession := 0 }]
          m := { sessions := w.m.sessions.insert gen.1 w.heap.length }
          wg := wg1
          cleaners := w.cleaners ++ [{ sID := gen.1, pc := PC.lookup }] })

/-- GetSessionData returns data related to session if sessionID is found,
errors otherwise. -/
def GetSessionData (w : World) (sessionID : String) :
    Option ((GoMap × Option Error) × World) :=
  match w.m.sessions.lookup sessionID with
  | none => some ((none, some ErrSessionNotFound), w)
  | some p =>
    match w.heap[p]? with
    | none => none
    | some session => some ((session.Data, none), w)

/-- UpdateSessionData overwrites the old session data with the new one. -/
def UpdateSessionData (w : World) (sessionID : String) (data : GoMap) :
    Option (Option Error × World) :=
  match w.m.sessions.lookup sessionID with
  | none => some (some ErrSessionNotFound, w)
  | some p =>
    match w.heap[p]? with
    | none => none
    | some session =>
      let session1 := { session with Data := data }
      some (none, { w with heap := w.heap.set p { session1 with totalTimePerSession := 0 } })

/-- One lock-delimited step of the goroutine `cleaners[i]` running
`SessionCleaner(sID)`.  A goroutine that has returned, or an index that names
no goroutine, leaves the state as it is. -/
def SessionCleanerStep (w : World) (i : Nat) : Option World :=
  match w.cleaners[i]? with
  | none => some w
  | some c =>
    match c.pc with
    | PC.lookup =>
      match w.m.sessions.lookup c.sID with
      | none =>
        match wgDone w.wg with
        | none => none
        | some wg1 => some { w with wg := wg1, cleaners := w.cleaners.set i { c with pc := PC.done } }
      | some p => some { w with cleaners := w.cleaners.set i { c with pc := PC.tick p } }
    | PC.tick p =>
      match w.heap[p]? with
      | none => none
      | some session =>
        some { w with
          heap := w.heap.set p
            { session with totalTimePerSession := addInt64 session.totalTimePerSession 1 }
          cleaners := w.cleaners.set i { c with pc := PC.compare p } }
    | PC.compare p =>
      match w.heap[p]? with
      | none => none
      | some session =>
        if session.totalTimePerSession ≥ MAX_TIME then
          some { w with cleaners := w.cleaners.set i { c with pc := PC.delete } }
        else
          some { w with cleaners := w.cleaners.set i { c with pc := PC.lookup } }
    | PC.delete =>
      match wgDone w.wg with
      | none => none
      | some wg1 =>
        some { w with
          m := { sessions := w.m.sessions.erase c.sID }
          wg := wg1
          cleaners := w.cleaners.set i { c with pc := PC.done } }
    | PC.done => some w

/-- What the program can do next. -/
inductive Action where
  | create (gen : String × Option Error)
  | get (sessionID : String)
  | update (sessionID : String) (data : GoMap)
  | clean (i : Nat)
  deriving DecidableEq

/-- One action of the program. -/
def step (w : World) : Action → Option World
  | Action.create gen => (CreateSession w gen).map Prod.snd
  | Action.get sessionID => (GetSessionData w sessionID).map Prod.snd
  | Action.update sessionID data => (UpdateSessionData w sessionID data).map Prod.snd
  | Action.clean i => SessionCleanerStep w i

/-- A schedule: the actions run one after the other. -/
def run (w : World) : List Action → Option World
  | [] => some w
  | act :: rest => (step w act).bind fun w1 => run w1 rest

/-- The `Session` object that `m.sessions[id]` points to, if `id` is a key. -/
def sessionOf (w : World) (id : String) : Option Session :=
  (w.m.sessions.lookup id).bind fun p => w.heap[p]?

/-- The goroutine has not returned. -/
def Cleaner.running (c : Cleaner) : Bool :=
  match c.pc with
  | PC.done => false
  | _ => true

/-- Number of cleaner goroutines that have not returned. -/
def liveCleaners (w : World) : Nat :=
  w.cleaners.countP Cleaner.running

/-- What Go guarantees of a state of this program: every pointer in the table
and every `currSession` held by a cleaner addresses an object, two keys never
share an object, and the wait group counts at least the running cleaners. -/
structure WF (w : World) : Prop where
  ptr_valid : ∀ id p, w.m.sessions.lookup id = some p → p < w.heap.length
  ptr_inj : ∀ id1 id2 p, w.m.sessions.lookup id1 = some p →
    w.m.sessions.lookup id2 = some p → id1 = id2
  cur_valid : ∀ c ∈ w.cleaners, ∀ p, (c.pc = PC.tick p ∨ c.pc = PC.compare p) →
    p < w.heap.length
  wg_live : (liveCleaners w : Int) ≤ w.wg

/-- A state the program reaches from `NewSessionManager`. -/
def Reachable (w : World) : Prop :=
  ∃ sched : List Action, run NewSessionManager sched = some w

/-- What one session and its cleaner see of the state: whether the id is a
key of the table, the `Session` object, and the cleaner's control point. -/
structure View where
  present : Bool
  session : Session
  pc : PC

/-- The cleaner's next step, on the view of its own session at address `p`. -/
def View.clean (p : Nat) (v : View) : View :=
  match v.pc with
  | PC.lookup => if v.present then { v with pc := PC.tick p } else { v with pc := PC.done }
  | PC.tick _ =>
    { v with
      session := { v.session with
        totalTimePerSession := addInt64 v.session.totalTimePerSession 1 }
      pc := PC.compare p }
  | PC.compare _ =>
    if v.session.totalTimePerSession ≥ MAX_TIME then { v with pc := PC.delete }
    else { v with pc := PC.lookup }
  | PC.delete => { v with present := false, pc := PC.done }
  | PC.done => v

/-- The effect of an action on the view of session `a`, whose cleaner is
goroutine `i` and whose object is at `p`. -/
def View.step (a : String) (i p : Nat) (v : View) : Action → View
  | Action.update id data =>
    if id = a ∧ v.present = true then
      { v with session := { Data := data, totalTimePerSession := 0 } }
    else v
  | Action.clean j => if j = i then v.clean p else v
  | _ => v

/-- The view after a schedule. -/
def View.run (a : String) (i p : Nat) (v : View) (sched : List Action) : View :=
  sched.foldl (View.step a i p) v

/-- In state `w` the session `a`, its object at `p` and its cleaner `i` are
as the view `v` says, and nothing else in `w` refers to them. -/
structure Sim (w : World) (a : String) (i p : Nat) (v : View) : Prop where
  wf : WF w
  tbl : w.m.sessions.lookup a = if v.present = true then some p else none
  obj : w.heap[p]? = some v.session
  mon : w.cleaners[i]? = some ⟨a, v.pc⟩
  cur : ∀ q, (v.pc = PC.tick q ∨ v.pc = PC.compare q) → q = p
  others_tbl : ∀ id, id ≠ a → w.m.sessions.lookup id ≠ some p
  others : ∀ j c, j ≠ i → w.cleaners[j]? = some c →
    c.sID ≠ a ∧ c.pc ≠ PC.tick p ∧ c.pc ≠ PC.compare p

/-- The id `a` has never been issued: it is no key and no cleaner watches it. -/
def Fresh (w : World) (a : String) : Prop :=
  a ∉ w.m.sessions ∧ ∀ c ∈ w.cleaners, c.sID ≠ a

/-- The action issues the id `a` again. -/
def Action.reissues (a : String) : Action → Prop
  | Action.create gen => gen.2 = none ∧ gen.1 = a
  | _ => False

/-- The action is an `UpdateSessionData` on `a`. -/
def Action.updates (a : String) : Action → Prop
  | Action.update id _ => id = a
  | _ => False

/-- Number of steps that goroutine `i` takes in a schedule. -/
def monitorSteps (i : Nat) : List Action → Nat
  | [] => 0
  | Action.clean j :: rest => (if j = i then 1 else 0) + monitorSteps i rest
  | _ :: rest => monitorSteps i rest

/-- The data most recently passed to `UpdateSessionData` on `a` in a
schedule, or `init` when there is none. -/
def lastWritten (a : String) (init : GoMap) : List Action → GoMap
  | [] => init
  | Action.update id data :: rest =>
    if id = a then lastWritten a data rest else lastWritten a init rest
  | _ :: rest => lastWritten a init rest

/-- The view of a session right after `CreateSession`. -/
def View.created : View :=
  { present := true, session := { Data := some ∅, totalTimePerSession := 0 }, pc := PC.lookup }

/-- The view of a session that its cleaner has deleted after five ticks. -/
def View.expired (data : GoMap) : View :=
  { present := false, session := { Data := data, totalTimePerSession := 5 }, pc := PC.done }

/-- The view of a session right after a successful `UpdateSessionData`. -/
def View.updated (data : GoMap) (pc : PC) : View :=
  { present := true, session := { Data := data, totalTimePerSession := 0 }, pc := pc }

/-- Steps the cleaner takes from its control point until it has deleted a
session whose idle clock is 0. -/
def stepsToDelete : PC → Nat
  | PC.lookup => 16
  | PC.tick _ => 15
  | PC.compare _ => 17
  | PC.delete => 1
  | PC.done => 0

/-- Ticks among the first `c` steps the cleaner takes from its control point. -/
def ticksTaken (c : Nat) : PC → Nat
  | PC.lookup => (c + 1) / 3
  | PC.tick _ => (c + 2) / 3
  | PC.compare _ => c / 3
  | _ => 0

/-- The data `{"website": "x"}`. -/
def websiteX : GoMap := some (AList.insert "website" (Value.str "x") ∅)

/-- The data `{"website": "y"}`. -/
def websiteY : GoMap := some (AList.insert "website" (Value.str "y") ∅)

/-- Create session `"a"` and let its cleaner take `n` steps. -/
def createThenClean (n : Nat) : List Action :=
  Action.create ("a", none) :: List.replicate n (Action.clean 0)

/-- The state with the single session `"a"`: its object, whether it is a key,
the wait group and its cleaner's control point. -/
def single (session : Session) (present : Bool) (wg : Int) (pc : PC) : World :=
  { heap := [session]
    m := { sessions := if present then AList.insert "a" 0 ∅ else ∅ }
    wg := wg
    cleaners := [{ sID := "a", pc := pc }] }

end SessionCleaner

namespace LimitServiceTime

/-- User defines the UserModel. -/
structure User where
  ID : Int
  IsPremium : Bool
  TimeUsed : Int
  deriving DecidableEq, Repr

/-- What a call of `HandleRequest` leaves behind: the returned flag, whether
`process()` was run, and the user record. -/
structure Handled where
  ret : Bool
  ran : Bool
  u : User
  deriving DecidableEq, Repr

/-- HandleRequest runs the processes requested by users. Returns false if
process had to be killed.  `elapsed` is `int(t2.Seconds())`, the whole seconds
measured around `process()`. -/
def HandleRequest (elapsed : Int) (u : User) : Handled :=
  if !u.IsPremium && decide (u.TimeUsed > 10) then
    { ret := false, ran := false, u := u }
  else if !u.IsPremium then
    let u1 : User := { u with TimeUsed := addInt64 u.TimeUsed elapsed }
    if u1.TimeUsed > 10 then { ret := false, ran := true, u := u1 }
    else { ret := true, ran := true, u := u1 }
  else { ret := true, ran := true, u := u }

/-- The user record after a sequence of requests. -/
def userAfter (u : User) (requests : List Int) : User :=
  requests.foldl (fun u1 elapsed => (HandleRequest elapsed u1).u) u

end LimitServiceTime

namespace SessionCleaner

/-! ## The three operations -/

theorem sessionOf_of_lookup {w : World} {id : String} {p : Nat}
    (h : w.m.sessions.lookup id = some p) : sessionOf w id = w.heap[p]? := by
  simp [sessionOf, h]

/-! ## Preservation of the Go-level invariant -/

theorem WF_NewSessionManager : WF NewSessionManager := by
  refine ⟨?_, ?_, ?_, ?_⟩
  · intro id p h
    simp [NewSessionManager] at h
  · intro id1 id2 p h
    simp [NewSessionManager] at h
  · intro c hc
    simp [NewSessionManager] at hc
  · simp [NewSessionManager, liveCleaners]

theorem liveCleaners_nonneg_wg {w : World} (hwf : WF w) : 0 ≤ w.wg :=
  le_trans (Int.ofNat_nonneg _) hwf.wg_live

/-- The state after a successful `CreateSession`. -/
theorem CreateSession_ok {w : World} (hwf : WF w) (id : String) :
    CreateSession w (id, none) = some ((id, none),
      { heap := w.heap ++ [{ Data := some ∅, totalTimePerSession := 0 }]
        m := { sessions := w.m.sessions.insert id w.heap.length }
        wg := w.wg + 1
        cleaners := w.cleaners ++ [{ sID := id, pc := PC.lookup }] }) := by
  have h0 := liveCleaners_nonneg_wg hwf
  have h1 : ¬ (w.wg + 1 < 0) := by omega
  simp [CreateSession, wgAdd, h1]

theorem WF_alloc {w : World} (hwf : WF w) (id : String) (session : Session) :
    WF { heap := w.heap ++ [session]
         m := { sessions := w.m.sessions.insert id w.heap.length }
         wg := w.wg + 1
         cleaners := w.cleaners ++ [{ sID := id, pc := PC.lookup }] } := by
  refine ⟨?_, ?_, ?_, ?_⟩
  · intro id1 p h
    simp only [List.length_append, List.length_singleton]
    by_cases hid : id1 = id
    · subst hid
      rw [AList.lookup_insert] at h
      simp only [Option.some.injEq] at h
      omega
    · rw [AList.lookup_insert_ne hid] at h
      have := hwf.ptr_valid id1 p h
      omega
  · intro id1 id2 p h1 h2
    by_cases hid1 : id1 = id <;> by_cases hid2 : id2 = id
    · rw [hid1, hid2]
    · subst hid1
      rw [AList.lookup_insert] at h1
      rw [AList.lookup_insert_ne hid2] at h2
      simp only [Option.some.injEq] at h1
      have := hwf.ptr_valid id2 p h2
      omega
    · subst hid2
      rw [AList.lookup_insert] at h2
      rw [AList.lookup_insert_ne hid1] at h1
      simp only [Option.some.injEq] at h2
      have := hwf.ptr_valid id1 p h1
      omega
    · rw [AList.lookup_insert_ne hid1] at h1
      rw [AList.lookup_insert_ne hid2] at h2
      exact hwf.ptr_inj id1 id2 p h1 h2
  · intro c hc p hp
    simp only [List.length_append, List.length_singleton]
    simp only [List.mem_append, List.mem_singleton] at hc
    rcases hc with hc | hc
    · have := hwf.cur_valid c hc p hp
      omega
    · subst hc
      simp at hp
  · have := hwf.wg_live
    simp only [liveCleaners, List.countP_append] at this ⊢
    have h1 : List.countP Cleaner.running [({ sID := id, pc := PC.lookup } : Cleaner)] = 1 := rfl
    rw [h1]
    push_cast
    omega

theorem WF_setHeap {w : World} (hwf : WF w) (p : Nat) (session : Session) :
    WF { w with heap := w.heap.set p session } := by
  refine ⟨?_, hwf.ptr_inj, ?_, hwf.wg_live⟩
  · intro id q h
    simpa using hwf.ptr_valid id q h
  · intro c hc q hq
    simpa using hwf.cur_valid c hc q hq

theorem running_iff (c : Cleaner) : c.running = true ↔ c.pc ≠ PC.done := by
  unfold Cleaner.running
  cases c.pc <;> simp

theorem liveCleaners_set {l : List Cleaner} {i : Nat} {c : Cleaner} (h : l[i]? = some c)
    (c1 : Cleaner) :
    (l.set i c1).countP Cleaner.running + (if c.running then 1 else 0) =
      l.countP Cleaner.running + (if c1.running then 1 else 0) := by
  obtain ⟨hi, hc⟩ := List.getElem?_eq_some.mp h
  have h1 := List.countP_set Cleaner.running l i c1 hi
  have h2 := List.boole_getElem_le_countP Cleaner.running l i hi
  rw [hc] at h1 h2
  omega

/-- A cleaner moves from one running control point to another. -/
theorem WF_setPC {w : World} (hwf : WF w) {i : Nat} {c : Cleaner}
    (hc : w.cleaners[i]? = some c) (hlive : c.pc ≠ PC.done) (pc1 : PC) (hpc1 : pc1 ≠ PC.done)
    (hcur : ∀ p, (pc1 = PC.tick p ∨ pc1 = PC.compare p) → p < w.heap.length) :
    WF { w with cleaners := w.cleaners.set i { c with pc := pc1 } } := by
  refine ⟨hwf.ptr_valid, hwf.ptr_inj, ?_, ?_⟩
  · intro c1 hc1 p hp
    rcases List.mem_or_eq_of_mem_set hc1 with hmem | heq
    · exact hwf.cur_valid c1 hmem p hp
    · subst heq
      exact hcur p hp
  · have h := liveCleaners_set hc { c with pc := pc1 }
    have := hwf.wg_live
    simp only [liveCleaners] at this ⊢
    have e1 : c.running = true := (running_iff c).mpr hlive
    have e2 : ({ c with pc := pc1 } : Cleaner).running = true := (running_iff _).mpr hpc1
    simp only [e1, e2, if_true] at h
    omega

/-- A cleaner returns: its `wg.Done()` runs and the table becomes `tbl`, a
table whose entries are entries of the old one. -/
theorem WF_return {w : World} (hwf : WF w) {i : Nat} {c : Cleaner}
    (hc : w.cleaners[i]? = some c) (hlive : c.pc ≠ PC.done)
    (tbl : AList (fun _ : String => Nat))
    (htbl : ∀ id p, tbl.lookup id = some p → w.m.sessions.lookup id = some p) :
    wgDone w.wg = some (w.wg - 1) ∧
    WF { w with m := { sessions := tbl }, wg := w.wg - 1,
                cleaners := w.cleaners.set i { c with pc := PC.done } } := by
  have h := liveCleaners_set hc { c with pc := PC.done }
  have hl := hwf.wg_live
  simp only [liveCleaners] at hl
  have e1 : c.running = true := (running_iff c).mpr hlive
  have e2 : ({ c with pc := PC.done } : Cleaner).running = false := rfl
  simp only [e1, e2, if_true, Bool.false_eq_true, if_false] at h
  constructor
  · have : ¬ (w.wg + -1 < 0) := by omega
    simp [wgDone, wgAdd, this]
    omega
  · refine ⟨?_, ?_, ?_, ?_⟩
    · intro id p hp
      exact hwf.ptr_valid id p (htbl id p hp)
    · intro id1 id2 p h1 h2
      exact hwf.ptr_inj id1 id2 p (htbl id1 p h1) (htbl id2 p h2)
    · intro c1 hc1 p hp
      rcases List.mem_or_eq_of_mem_set hc1 with hmem | heq
      · exact hwf.cur_valid c1 hmem p hp
      · subst heq
        simp at hp
    · simp only [liveCleaners]
      omega

/-! ## The state after each operation -/

theorem UpdateSessionData_present {w : World} {id : String} {p : Nat} {session : Session}
    (hl : w.m.sessions.lookup id = some p) (hp : w.heap[p]? = some session) (data : GoMap) :
    UpdateSessionData w id data =
      some (none, { w with heap := w.heap.set p { Data := data, totalTimePerSession := 0 } }) := by
  simp [UpdateSessionData, hl, hp]

theorem GetSessionData_present {w : World} {id : String} {p : Nat} {session : Session}
    (hl : w.m.sessions.lookup id = some p) (hp : w.heap[p]? = some session) :
    GetSessionData w id = some ((session.Data, none), w) := by
  simp [GetSessionData, hl, hp]

theorem GetSessionData_absent {w : World} {id : String}
    (hl : w.m.sessions.lookup id = none) :
    GetSessionData w id = some ((none, some ErrSessionNotFound), w) := by
  simp [GetSessionData, hl]

theorem clean_lookup_absent {w : World} (hwf : WF w) {i : Nat} {sID : String}
    (hc : w.cleaners[i]? = some ⟨sID, PC.lookup⟩) (hl : w.m.sessions.lookup sID = none) :
    SessionCleanerStep w i = some { w with
      wg := w.wg - 1, cleaners := w.cleaners.set i ⟨sID, PC.done⟩ } := by
  have h := (WF_return hwf hc (by simp) w.m.sessions (fun _ _ h => h)).1
  simp [SessionCleanerStep, hc, hl, h]

theorem clean_lookup_present {w : World} {i : Nat} {sID : String} {p : Nat}
    (hc : w.cleaners[i]? = some ⟨sID, PC.lookup⟩) (hl : w.m.sessions.lookup sID = some p) :
    SessionCleanerStep w i = some { w with cleaners := w.cleaners.set i ⟨sID, PC.tick p⟩ } := by
  simp [SessionCleanerStep, hc, hl]

theorem clean_tick {w : World} {i : Nat} {sID : String} {p : Nat} {session : Session}
    (hc : w.cleaners[i]? = some ⟨sID, PC.tick p⟩) (hp : w.heap[p]? = some session) :
    SessionCleanerStep w i = some { w with
      heap := w.heap.set p
        { session with totalTimePerSession := addInt64 session.totalTimePerSession 1 }
      cleaners := w.cleaners.set i ⟨sID, PC.compare p⟩ } := by
  simp [SessionCleanerStep, hc, hp]

theorem clean_compare {w : World} {i : Nat} {sID : String} {p : Nat} {session : Session}
    (hc : w.cleaners[i]? = some ⟨sID, PC.compare p⟩) (hp : w.heap[p]? = some session) :
    SessionCleanerStep w i = some { w with
      cleaners := w.cleaners.set i
        ⟨sID, if session.totalTimePerSession ≥ MAX_TIME then PC.delete else PC.lookup⟩ } := by
  by_cases h : session.totalTimePerSession ≥ MAX_TIME <;>
    simp [SessionCleanerStep, hc, hp, h]

theorem clean_delete {w : World} (hwf : WF w) {i : Nat} {sID : String}
    (hc : w.cleaners[i]? = some ⟨sID, PC.delete⟩) :
    SessionCleanerStep w i = some { w with
      m := { sessions := w.m.sessions.erase sID }
      wg := w.wg - 1
      cleaners := w.cleaners.set i ⟨sID, PC.done⟩ } := by
  have h := (WF_return hwf hc (by simp) w.m.sessions (fun _ _ h => h)).1
  simp [SessionCleanerStep, hc, h]

theorem clean_done {w : World} {i : Nat} {sID : String}
    (hc : w.cleaners[i]? = some ⟨sID, PC.done⟩) : SessionCleanerStep w i = some w := by
  simp [SessionCleanerStep, hc]

theorem clean_none {w : World} {i : Nat} (hc : w.cleaners[i]? = none) :
    SessionCleanerStep w i = some w := by
  simp [SessionCleanerStep, hc]

theorem lookup_of_erase {tbl : AList (fun _ : String => Nat)} {sID id : String} {p : Nat}
    (h : (tbl.erase sID).lookup id = some p) : tbl.lookup id = some p := by
  by_cases hid : id = sID
  · subst hid
    simp [AList.lookup_erase] at h
  · rwa [AList.lookup_erase_ne hid] at h

/-- Every step of a cleaner is defined on a well-formed state and keeps it
well formed. -/
theorem SessionCleanerStep_WF {w : World} (hwf : WF w) (i : Nat) :
    ∃ w1, SessionCleanerStep w i = some w1 ∧ WF w1 := by
  cases hc : w.cleaners[i]? with
  | none => exact ⟨w, clean_none hc, hwf⟩
  | some c =>
    obtain ⟨sID, pc⟩ := c
    have hmem : (⟨sID, pc⟩ : Cleaner) ∈ w.cleaners := List.mem_iff_getElem?.mpr ⟨i, hc⟩
    cases pc with
    | lookup =>
      cases hl : w.m.sessions.lookup sID with
      | none =>
        exact ⟨_, clean_lookup_absent hwf hc hl,
          (WF_return hwf hc (by simp) w.m.sessions (fun _ _ h => h)).2⟩
      | some p =>
        refine ⟨_, clean_lookup_present hc hl, WF_setPC hwf hc (by simp) (PC.tick p) (by simp) ?_⟩
        intro q hq
        simp only [PC.tick.injEq, reduceCtorEq, or_false] at hq
        subst hq
        exact hwf.ptr_valid sID _ hl
    | tick p =>
      have hlt := hwf.cur_valid _ hmem p (Or.inl rfl)
      have hp : w.heap[p]? = some w.heap[p] := List.getElem?_eq_getElem hlt
      refine ⟨_, clean_tick hc hp, ?_⟩
      have hwf1 := WF_setHeap hwf p
        { w.heap[p] with totalTimePerSession := addInt64 w.heap[p].totalTimePerSession 1 }
      refine WF_setPC hwf1 hc (by simp) (PC.compare p) (by simp) ?_
      intro q hq
      simp only [reduceCtorEq, PC.compare.injEq, false_or] at hq
      subst hq
      simpa using hlt
    | compare p =>
      have hlt := hwf.cur_valid _ hmem p (Or.inr rfl)
      have hp : w.heap[p]? = some w.heap[p] := List.getElem?_eq_getElem hlt
      refine ⟨_, clean_compare hc hp, WF_setPC hwf hc (by simp) _ ?_ ?_⟩
      · split <;> simp
      · intro q hq
        split at hq <;> simp at hq
    | delete =>
      exact ⟨_, clean_delete hwf hc,
        (WF_return hwf hc (by simp) (w.m.sessions.erase sID) (fun _ _ h => lookup_of_erase h)).2⟩
    | done => exact ⟨w, clean_done hc, hwf⟩

/-- Every action is defined on a well-formed state and keeps it well formed:
no operation panics. -/
theorem step_WF {w : World} (hwf : WF w) (act : Action) :
    ∃ w1, step w act = some w1 ∧ WF w1 := by
  cases act with
  | create gen =>
    obtain ⟨id, err⟩ := gen
    cases err with
    | some e => exact ⟨w, rfl, hwf⟩
    | none =>
      refine ⟨_, ?_, WF_alloc hwf id { Data := some ∅, totalTimePerSession := 0 }⟩
      simp [step, CreateSession_ok hwf id]
  | get id =>
    refine ⟨w, ?_, hwf⟩
    cases hl : w.m.sessions.lookup id with
    | none => simp [step, GetSessionData_absent hl]
    | some p =>
      have hlt := hwf.ptr_valid id p hl
      simp [step, GetSessionData_present hl (List.getElem?_eq_getElem hlt)]
  | update id data =>
    cases hl : w.m.sessions.lookup id with
    | none => exact ⟨w, by simp [step, UpdateSessionData, hl], hwf⟩
    | some p =>
      have hlt := hwf.ptr_valid id p hl
      refine ⟨_, ?_, WF_setHeap hwf p { Data := data, totalTimePerSession := 0 }⟩
      simp [step, UpdateSessionData_present hl (List.getElem?_eq_getElem hlt)]
  | clean i => exact SessionCleanerStep_WF hwf i

theorem run_WF {w : World} (hwf : WF w) (sched : List Action) :
    ∃ w1, run w sched = some w1 ∧ WF w1 := by
  induction sched generalizing w with
  | nil => exact ⟨w, rfl, hwf⟩
  | cons act rest ih =>
    obtain ⟨w1, h1, hwf1⟩ := step_WF hwf act
    obtain ⟨w2, h2, hwf2⟩ := ih hwf1
    exact ⟨w2, by simp [run, h1, h2], hwf2⟩

theorem Reachable.wf {w : World} (h : Reachable w) : WF w := by
  obtain ⟨sched, hs⟩ := h
  obtain ⟨w1, h1, hwf1⟩ := run_WF WF_NewSessionManager sched
  rw [hs] at h1
  cases h1
  exact hwf1

/-! ## One session and its cleaner inside an arbitrary state -/

theorem Sim.lt_heap {w : World} {a : String} {i p : Nat} {v : View} (h : Sim w a i p v) :
    p < w.heap.length :=
  (List.getElem?_eq_some.mp h.obj).1

theorem Sim.lt_cleaners {w : World} {a : String} {i p : Nat} {v : View} (h : Sim w a i p v) :
    i < w.cleaners.length :=
  (List.getElem?_eq_some.mp h.mon).1

theorem Sim.create {w : World} {a : String} {i p : Nat} {v : View} (h : Sim w a i p v)
    (id : String) (hid : id ≠ a) :
    Sim { heap := w.heap ++ [{ Data := some ∅, totalTimePerSession := 0 }]
          m := { sessions := w.m.sessions.insert id w.heap.length }
          wg := w.wg + 1
          cleaners := w.cleaners ++ [{ sID := id, pc := PC.lookup }] } a i p v := by
  have hp := h.lt_heap
  have hi := h.lt_cleaners
  refine ⟨WF_alloc h.wf id _, ?_, ?_, ?_, h.cur, ?_, ?_⟩
  · show (w.m.sessions.insert id w.heap.length).lookup a = _
    rw [AList.lookup_insert_ne (Ne.symm hid)]
    exact h.tbl
  · show (w.heap ++ _)[p]? = _
    rw [List.getElem?_append_left hp]
    exact h.obj
  · show (w.cleaners ++ _)[i]? = _
    rw [List.getElem?_append_left hi]
    exact h.mon
  · intro id1 hid1
    show (w.m.sessions.insert id w.heap.length).lookup id1 ≠ _
    by_cases e : id1 = id
    · subst e
      rw [AList.lookup_insert]
      intro hh
      simp only [Option.some.injEq] at hh
      omega
    · rw [AList.lookup_insert_ne e]
      exact h.others_tbl id1 hid1
  · intro j c hj hc
    change (w.cleaners ++ _)[j]? = _ at hc
    by_cases hjl : j < w.cleaners.length
    · rw [List.getElem?_append_left hjl] at hc
      exact h.others j c hj hc
    · rw [List.getElem?_append_right (by omega)] at hc
      have hc1 : c = { sID := id, pc := PC.lookup } := by
        rcases Nat.eq_zero_or_pos (j - w.cleaners.length) with e | e
        · rw [e] at hc
          simpa using hc.symm
        · have : (j - w.cleaners.length) = (j - w.cleaners.length - 1) + 1 := by omega
          rw [this] at hc
          simp at hc
      subst hc1
      exact ⟨hid, by simp, by simp⟩

theorem Sim.update_self {w : World} {a : String} {i p : Nat} {v : View} (h : Sim w a i p v)
    (data : GoMap) :
    Sim { w with heap := w.heap.set p { Data := data, totalTimePerSession := 0 } } a i p
      { v with session := { Data := data, totalTimePerSession := 0 } } := by
  refine ⟨WF_setHeap h.wf p _, h.tbl, ?_, h.mon, h.cur, h.others_tbl, h.others⟩
  show (w.heap.set p _)[p]? = _
  rw [List.getElem?_set_self h.lt_heap]

theorem Sim.update_other {w : World} {a : String} {i p : Nat} {v : View} (h : Sim w a i p v)
    (q : Nat) (hq : q ≠ p) (session : Session) :
    Sim { w with heap := w.heap.set q session } a i p v := by
  refine ⟨WF_setHeap h.wf q _, h.tbl, ?_, h.mon, h.cur, h.others_tbl, h.others⟩
  show (w.heap.set q _)[p]? = _
  rw [List.getElem?_set_ne hq]
  exact h.obj

/-- Another cleaner moves to a control point that does not hold `p`. -/
theorem Sim.setPC_other {w : World} {a : String} {i p : Nat} {v : View} (h : Sim w a i p v)
    {j : Nat} (hj : j ≠ i) {c : Cleaner} (hc : w.cleaners[j]? = some c) (pc1 : PC)
    (h1 : pc1 ≠ PC.tick p) (h2 : pc1 ≠ PC.compare p)
    {w1 : World} (hwf1 : WF w1) (hheap : w1.heap = w.heap) (htbl : w1.m = w.m)
    (hcl : w1.cleaners = w.cleaners.set j { c with pc := pc1 }) :
    Sim w1 a i p v := by
  refine ⟨hwf1, ?_, ?_, ?_, h.cur, ?_, ?_⟩
  · rw [htbl]; exact h.tbl
  · rw [hheap]; exact h.obj
  · rw [hcl, List.getElem?_set_ne hj]; exact h.mon
  · rw [htbl]; exact h.others_tbl
  · intro k c1 hk hc1
    rw [hcl] at hc1
    by_cases hkj : k = j
    · subst hkj
      rw [List.getElem?_set_self (List.getElem?_eq_some.mp hc).1] at hc1
      simp only [Option.some.injEq] at hc1
      subst hc1
      exact ⟨(h.others k c hk hc).1, h1, h2⟩
    · rw [List.getElem?_set_ne (Ne.symm hkj)] at hc1
      exact h.others k c1 hk hc1

/-- A step of the session's own cleaner is the step of the view. -/
theorem Sim.clean_self {w : World} {a : String} {i p : Nat} {v : View} (h : Sim w a i p v) :
    ∃ w1, SessionCleanerStep w i = some w1 ∧ Sim w1 a i p (v.clean p) := by
  obtain ⟨present, session, pc⟩ := v
  have hmon := h.mon
  have hobj := h.obj
  have htbl := h.tbl
  simp only at hmon hobj htbl
  have hothers : ∀ (pc1 : PC) (j : Nat) (c : Cleaner), j ≠ i →
      (w.cleaners.set i ⟨a, pc1⟩)[j]? = some c →
      c.sID ≠ a ∧ c.pc ≠ PC.tick p ∧ c.pc ≠ PC.compare p := by
    intro pc1 j c hj hc
    rw [List.getElem?_set_ne (Ne.symm hj)] at hc
    exact h.others j c hj hc
  have hself : ∀ pc1 : PC, (w.cleaners.set i ⟨a, pc1⟩)[i]? = some ⟨a, pc1⟩ := fun pc1 =>
    List.getElem?_set_self h.lt_cleaners
  cases pc with
  | lookup =>
    cases present with
    | true =>
      simp only [if_true] at htbl
      refine ⟨_, clean_lookup_present hmon htbl, ?_⟩
      refine ⟨WF_setPC h.wf hmon (by simp) (PC.tick p) (by simp) ?_, htbl, hobj, hself _, ?_,
        h.others_tbl, hothers _⟩
      · intro q hq
        simp only [PC.tick.injEq, reduceCtorEq, or_false] at hq
        subst hq
        exact h.lt_heap
      · intro q hq
        simp only [View.clean, if_true, PC.tick.injEq, reduceCtorEq, or_false] at hq
        exact hq.symm
    | false =>
      simp only [Bool.false_eq_true, if_false] at htbl
      refine ⟨_, clean_lookup_absent h.wf hmon htbl, ?_⟩
      refine ⟨(WF_return h.wf hmon (by simp) w.m.sessions (fun _ _ h => h)).2, ?_, hobj,
        hself _, ?_, h.others_tbl, hothers _⟩
      · simpa [View.clean] using htbl
      · intro q hq
        simp [View.clean] at hq
  | tick q =>
    have hq : q = p := h.cur q (Or.inl rfl)
    subst hq
    refine ⟨_, clean_tick hmon hobj, ?_⟩
    have hwf1 := WF_setHeap h.wf q
      { session with totalTimePerSession := addInt64 session.totalTimePerSession 1 }
    refine ⟨WF_setPC hwf1 hmon (by simp) (PC.compare q) (by simp) ?_, htbl, ?_, hself _, ?_,
      h.others_tbl, hothers _⟩
    · intro r hr
      simp only [reduceCtorEq, PC.compare.injEq, false_or] at hr
      subst hr
      simpa using h.lt_heap
    · show (w.heap.set q _)[q]? = _
      rw [List.getElem?_set_self h.lt_heap]
      rfl
    · intro r hr
      simp only [View.clean, reduceCtorEq, PC.compare.injEq, false_or] at hr
      exact hr.symm
  | compare q =>
    have hq : q = p := h.cur q (Or.inr rfl)
    subst hq
    refine ⟨_, clean_compare hmon hobj, ?_⟩
    by_cases hge : session.totalTimePerSession ≥ MAX_TIME
    · simp only [hge, if_true, View.clean]
      refine ⟨WF_setPC h.wf hmon (by simp) PC.delete (by simp) (by simp), htbl, hobj, hself _, ?_,
        h.others_tbl, hothers _⟩
      intro r hr
      simp at hr
    · simp only [hge, if_false, View.clean]
      refine ⟨WF_setPC h.wf hmon (by simp) PC.lookup (by simp) (by simp), htbl, hobj, hself _, ?_,
        h.others_tbl, hothers _⟩
      intro r hr
      simp at hr
  | delete =>
    refine ⟨_, clean_delete h.wf hmon, ?_⟩
    refine ⟨(WF_return h.wf hmon (by simp) (w.m.sessions.erase a)
      (fun _ _ h => lookup_of_erase h)).2, ?_, hobj, hself _, ?_, ?_, hothers _⟩
    · show (w.m.sessions.erase a).lookup a = _
      simp [View.clean, AList.lookup_erase]
    · intro r hr
      simp [View.clean] at hr
    · intro id hid hl
      exact h.others_tbl id hid (lookup_of_erase hl)
  | done =>
    exact ⟨w, clean_done hmon, h⟩

/-- A step of any other cleaner leaves the view as it is. -/
theorem Sim.clean_other {w : World} {a : String} {i p : Nat} {v : View} (h : Sim w a i p v)
    {j : Nat} (hj : j ≠ i) :
    ∃ w1, SessionCleanerStep w j = some w1 ∧ Sim w1 a i p v := by
  obtain ⟨w1, hstep, hwf1⟩ := SessionCleanerStep_WF h.wf j
  refine ⟨w1, hstep, ?_⟩
  cases hc : w.cleaners[j]? with
  | none =>
    rw [clean_none hc] at hstep
    cases hstep
    exact h
  | some c =>
    obtain ⟨sID, pc⟩ := c
    obtain ⟨hsid, hpc1, hpc2⟩ := h.others j _ hj hc
    simp only at hsid hpc1 hpc2
    have hmem : (⟨sID, pc⟩ : Cleaner) ∈ w.cleaners := List.mem_iff_getElem?.mpr ⟨j, hc⟩
    cases pc with
    | lookup =>
      cases hl : w.m.sessions.lookup sID with
      | none =>
        rw [clean_lookup_absent h.wf hc hl] at hstep
        cases hstep
        exact h.setPC_other hj hc PC.done (by simp) (by simp) hwf1 rfl rfl rfl
      | some q =>
        rw [clean_lookup_present hc hl] at hstep
        cases hstep
        have hq : q ≠ p := fun e => h.others_tbl sID hsid (e ▸ hl)
        exact h.setPC_other hj hc (PC.tick q) (by simpa using hq) (by simp) hwf1 rfl rfl rfl
    | tick q =>
      have hq : q ≠ p := fun e => hpc1 (by rw [e])
      have hlt := h.wf.cur_valid _ hmem q (Or.inl rfl)
      have hp : w.heap[q]? = some w.heap[q] := List.getElem?_eq_getElem hlt
      rw [clean_tick hc hp] at hstep
      cases hstep
      have h1 := h.update_other q hq
        { w.heap[q] with totalTimePerSession := addInt64 w.heap[q].totalTimePerSession 1 }
      exact h1.setPC_other hj hc (PC.compare q) (by simp) (by simpa using hq) hwf1 rfl rfl rfl
    | compare q =>
      have hlt := h.wf.cur_valid _ hmem q (Or.inr rfl)
      have hp : w.heap[q]? = some w.heap[q] := List.getElem?_eq_getElem hlt
      rw [clean_compare hc hp] at hstep
      cases hstep
      refine h.setPC_other hj hc _ ?_ ?_ hwf1 rfl rfl rfl
      · split <;> simp
      · split <;> simp
    | delete =>
      rw [clean_delete h.wf hc] at hstep
      cases hstep
      refine ⟨hwf1, ?_, h.obj, ?_, h.cur, ?_, ?_⟩
      · show (w.m.sessions.erase sID).lookup a = _
        rw [AList.lookup_erase_ne (Ne.symm hsid)]
        exact h.tbl
      · show (w.cleaners.set j _)[i]? = _
        rw [List.getElem?_set_ne hj]
        exact h.mon
      · intro id hid hl
        exact h.others_tbl id hid (lookup_of_erase hl)
      · intro k c1 hk hc1
        change (w.cleaners.set j _)[k]? = _ at hc1
        by_cases hkj : k = j
        · subst hkj
          rw [List.getElem?_set_self (List.getElem?_eq_some.mp hc).1] at hc1
          simp only [Option.some.injEq] at hc1
          subst hc1
          exact ⟨hsid, by simp, by simp⟩
        · rw [List.getElem?_set_ne (Ne.symm hkj)] at hc1
          exact h.others k c1 hk hc1
    | done =>
      rw [clean_done hc] at hstep
      cases hstep
      exact h

/-- Every action that does not issue the id `a` again is defined and acts on
the session `a` and its cleaner as `View.step` says. -/
theorem Sim.step {w : World} {a : String} {i p : Nat} {v : View} (h : Sim w a i p v)
    (act : Action) (hact : ¬ act.reissues a) :
    ∃ w1, SessionCleaner.step w act = some w1 ∧ Sim w1 a i p (v.step a i p act) := by
  cases act with
  | create gen =>
    obtain ⟨id, err⟩ := gen
    cases err with
    | some e => exact ⟨w, rfl, h⟩
    | none =>
      have hid : id ≠ a := fun e => hact ⟨rfl, e⟩
      refine ⟨_, ?_, h.create id hid⟩
      simp [SessionCleaner.step, CreateSession_ok h.wf id]
  | get id =>
    obtain ⟨w1, h1, -⟩ := step_WF h.wf (Action.get id)
    have : w1 = w := by
      simp only [SessionCleaner.step, GetSessionData] at h1
      cases hl : w.m.sessions.lookup id with
      | none => simp [hl] at h1; exact h1.symm
      | some q =>
        simp only [hl] at h1
        cases hq : w.heap[q]? with
        | none => simp [hq] at h1
        | some s => simp [hq] at h1; exact h1.symm
    subst this
    exact ⟨w1, h1, h⟩
  | update id data =>
    by_cases hid : id = a
    · subst hid
      cases hpres : v.present with
      | true =>
        have htbl := h.tbl
        simp only [hpres, if_true] at htbl
        refine ⟨{ w with heap := w.heap.set p { Data := data, totalTimePerSession := 0 } },
          ?_, ?_⟩
        · simp only [SessionCleaner.step, UpdateSessionData_present htbl h.obj, Option.map_some']
        · simpa [View.step, hpres] using h.update_self data
      | false =>
        have htbl := h.tbl
        simp only [hpres, Bool.false_eq_true, if_false] at htbl
        refine ⟨w, ?_, ?_⟩
        · simp [SessionCleaner.step, UpdateSessionData, htbl]
        · simpa [View.step, hpres] using h
    · have hv : v.step a i p (Action.update id data) = v := by simp [View.step, hid]
      rw [hv]
      cases hl : w.m.sessions.lookup id with
      | none => exact ⟨w, by simp [SessionCleaner.step, UpdateSessionData, hl], h⟩
      | some q =>
        have hq : q ≠ p := fun e => h.others_tbl id hid (e ▸ hl)
        have hlt := h.wf.ptr_valid id q hl
        refine ⟨_, ?_, h.update_other q hq { Data := data, totalTimePerSession := 0 }⟩
        simp [SessionCleaner.step, UpdateSessionData_present hl (List.getElem?_eq_getElem hlt)]
  | clean j =>
    by_cases hj : j = i
    · subst hj
      simpa [SessionCleaner.step, View.step] using h.clean_self
    · simpa [SessionCleaner.step, View.step, hj] using h.clean_other hj

/-- A schedule that never issues `a` again runs to a state, which the view
after the schedule describes. -/
theorem Sim.run {w : World} {a : String} {i p : Nat} {v : View} (h : Sim w a i p v)
    (sched : List Action) (hsched : ∀ act ∈ sched, ¬ act.reissues a) :
    ∃ w1, SessionCleaner.run w sched = some w1 ∧ Sim w1 a i p (v.run a i p sched) := by
  induction sched generalizing w v with
  | nil => exact ⟨w, rfl, h⟩
  | cons act rest ih =>
    obtain ⟨w1, h1, hs1⟩ := h.step act (hsched act (List.mem_cons_self _ _))
    obtain ⟨w2, h2, hs2⟩ := ih hs1 (fun b hb => hsched b (List.mem_cons_of_mem _ hb))
    exact ⟨w2, by simp [SessionCleaner.run, h1, h2], by simpa [View.run] using hs2⟩

/-- After a successful `CreateSession` of a fresh id the new session and its
cleaner are alone with the new object. -/
theorem Sim.of_create {w : World} (hwf : WF w) {a : String} (hfresh : Fresh w a) :
    Sim { heap := w.heap ++ [{ Data := some ∅, totalTimePerSession := 0 }]
          m := { sessions := w.m.sessions.insert a w.heap.length }
          wg := w.wg + 1
          cleaners := w.cleaners ++ [{ sID := a, pc := PC.lookup }] }
      a w.cleaners.length w.heap.length
      { present := true, session := { Data := some ∅, totalTimePerSession := 0 },
        pc := PC.lookup } := by
  refine ⟨WF_alloc hwf a _, ?_, ?_, ?_, ?_, ?_, ?_⟩
  · show (w.m.sessions.insert a w.heap.length).lookup a = _
    simp [AList.lookup_insert]
  · show (w.heap ++ _)[w.heap.length]? = _
    simp
  · show (w.cleaners ++ _)[w.cleaners.length]? = _
    simp
  · intro q hq
    simp at hq
  · intro id hid
    show (w.m.sessions.insert a w.heap.length).lookup id ≠ _
    rw [AList.lookup_insert_ne hid]
    intro hl
    have := hwf.ptr_valid id _ hl
    omega
  · intro j c hj hc
    change (w.cleaners ++ _)[j]? = _ at hc
    have hjl : j < w.cleaners.length := by
      have := (List.getElem?_eq_some.mp hc).1
      simp only [List.length_append, List.length_singleton] at this
      omega
    rw [List.getElem?_append_left hjl] at hc
    have hmem : c ∈ w.cleaners := List.mem_iff_getElem?.mpr ⟨j, hc⟩
    refine ⟨hfresh.2 c hmem, ?_, ?_⟩
    · intro e
      have := hwf.cur_valid c hmem _ (Or.inl e)
      omega
    · intro e
      have := hwf.cur_valid c hmem _ (Or.inr e)
      omega

/-! ## The view of an untouched session -/

theorem View.run_cons (a : String) (i p : Nat) (v : View) (act : Action) (rest : List Action) :
    v.run a i p (act :: rest) = (v.step a i p act).run a i p rest := rfl

/-- With no `UpdateSessionData` on `a`, only the steps of its own cleaner
change the view. -/
theorem View.run_untouched (a : String) (i p : Nat) (sched : List Action)
    (hsched : ∀ act ∈ sched, ¬ act.updates a) (v : View) :
    v.run a i p sched = (View.clean p)^[monitorSteps i sched] v := by
  induction sched generalizing v with
  | nil => rfl
  | cons act rest ih =>
    have ih1 := ih (fun b hb => hsched b (List.mem_cons_of_mem _ hb))
    have hact := hsched act (List.mem_cons_self _ _)
    rw [View.run_cons, ih1]
    cases act with
    | create gen => rfl
    | get id => rfl
    | update id data =>
      have hid : id ≠ a := hact
      simp [View.step, hid, monitorSteps]
    | clean j =>
      by_cases hj : j = i
      · simp only [View.step, hj, if_true, monitorSteps]
        rw [Nat.add_comm, Function.iterate_succ_apply]
      · simp [View.step, hj, monitorSteps]

theorem View.clean_expired (p : Nat) (data : GoMap) (n : Nat) :
    (View.clean p)^[n] (View.expired data) = View.expired data :=
  Function.iterate_fixed rfl n

/-- Fewer than 16 steps of the cleaner: the session is a key, its data is
empty and its idle clock counts the ticks taken, `(c + 1) / 3`. -/
theorem View.created_alive (p c : Nat) (hc : c < 16) :
    ((View.clean p)^[c] View.created).present = true ∧
    ((View.clean p)^[c] View.created).session =
      { Data := some ∅, totalTimePerSession := ((c + 1) / 3 : Nat) } := by
  interval_cases c <;>
    simp [View.clean, View.created, Function.iterate_succ_apply, addInt64, MAX_TIME]

/-- From the 16th step of the cleaner on, the session is deleted. -/
theorem View.created_expired (p c : Nat) (hc : 16 ≤ c) :
    (View.clean p)^[c] View.created = View.expired (some ∅) := by
  obtain ⟨n, rfl⟩ := Nat.exists_eq_add_of_le hc
  rw [Nat.add_comm, Function.iterate_add_apply]
  have h16 : (View.clean p)^[16] View.created = View.expired (some ∅) := by
    simp [View.clean, View.created, View.expired, Function.iterate_succ_apply, addInt64,
      MAX_TIME]
  rw [h16, View.clean_expired]

theorem Sim.present {w : World} {a : String} {i p : Nat} {v : View} (h : Sim w a i p v)
    (hv : v.present = true) :
    a ∈ w.m.sessions ∧ sessionOf w a = some v.session ∧
    GetSessionData w a = some ((v.session.Data, none), w) ∧
    ∀ data, ∃ w1, UpdateSessionData w a data = some (none, w1) := by
  have htbl := h.tbl
  simp only [hv, if_true] at htbl
  refine ⟨?_, ?_, GetSessionData_present htbl h.obj, ?_⟩
  · rw [← AList.lookup_isSome, htbl]
    rfl
  · rw [sessionOf_of_lookup htbl]
    exact h.obj
  · intro data
    exact ⟨_, UpdateSessionData_present htbl h.obj data⟩

theorem Sim.absent {w : World} {a : String} {i p : Nat} {v : View} (h : Sim w a i p v)
    (hv : v.present = false) :
    a ∉ w.m.sessions ∧
    GetSessionData w a = some ((none, some ErrSessionNotFound), w) ∧
    ∀ data, UpdateSessionData w a data = some (some ErrSessionNotFound, w) := by
  have htbl := h.tbl
  simp only [hv, Bool.false_eq_true, if_false] at htbl
  refine ⟨AList.lookup_eq_none.mp htbl, GetSessionData_absent htbl, ?_⟩
  intro data
  simp [UpdateSessionData, htbl]

/-! ## Data written to a session -/

theorem View.clean_data (p : Nat) (v : View) :
    (v.clean p).session.Data = v.session.Data ∧ ((v.clean p).present = true → v.present = true) := by
  obtain ⟨present, session, pc⟩ := v
  cases pc with
  | lookup => cases present <;> simp [View.clean]
  | tick q => simp [View.clean]
  | compare q =>
    by_cases h : session.totalTimePerSession ≥ MAX_TIME <;> simp [View.clean, h]
  | delete => simp [View.clean]
  | done => simp [View.clean]

theorem View.step_present (a : String) (i p : Nat) (v : View) (act : Action)
    (h : (v.step a i p act).present = true) : v.present = true := by
  cases act with
  | create gen => exact h
  | get id => exact h
  | update id data =>
    by_cases hc : id = a ∧ v.present = true
    · exact hc.2
    · simpa [View.step, hc] using h
  | clean j =>
    by_cases hj : j = i
    · simp only [View.step, hj, if_true] at h
      exact (View.clean_data p v).2 h
    · simpa [View.step, hj] using h

/-- While the session is a key of the table, its data is the data of the
latest `UpdateSessionData` on it. -/
theorem View.run_data (a : String) (i p : Nat) (sched : List Action) (v : View)
    (h : (v.run a i p sched).present = true) :
    v.present = true ∧
    (v.run a i p sched).session.Data = lastWritten a v.session.Data sched := by
  induction sched generalizing v with
  | nil => exact ⟨h, rfl⟩
  | cons act rest ih =>
    rw [View.run_cons] at h ⊢
    obtain ⟨h1, h2⟩ := ih _ h
    have hv := View.step_present a i p v act h1
    refine ⟨hv, ?_⟩
    rw [h2]
    cases act with
    | create gen => rfl
    | get id => rfl
    | update id data =>
      by_cases hid : id = a
      · simp [View.step, hid, hv, lastWritten]
      · simp [View.step, hid, lastWritten]
    | clean j =>
      by_cases hj : j = i
      · simp only [View.step, hj, if_true, lastWritten]
        rw [(View.clean_data p v).1]
      · simp [View.step, hj, lastWritten]

theorem erase_absent (tbl : AList (fun _ : String => Nat)) {id : String} (h : id ∉ tbl) :
    tbl.erase id = tbl := by
  apply AList.ext
  exact List.kerase_of_not_mem_keys h

/-- An id that is no key stays no key as long as it is not issued again. -/
theorem absent_stays_absent {w : World} (hwf : WF w) {a : String} (ha : a ∉ w.m.sessions)
    (sched : List Action) (hsched : ∀ act ∈ sched, ¬ Action.reissues a act) :
    ∃ w1, run w sched = some w1 ∧ a ∉ w1.m.sessions := by
  induction sched generalizing w with
  | nil => exact ⟨w, rfl, ha⟩
  | cons act rest ih =>
    obtain ⟨w1, h1, hwf1⟩ := step_WF hwf act
    have hact := hsched act (List.mem_cons_self _ _)
    have ha1 : a ∉ w1.m.sessions := by
      cases act with
      | create gen =>
        obtain ⟨id, err⟩ := gen
        cases err with
        | some e =>
          have : w1 = w := by simpa [step, CreateSession] using h1.symm
          rw [this]; exact ha
        | none =>
          have hid : id ≠ a := fun e => hact ⟨rfl, e⟩
          simp only [step, CreateSession_ok hwf id, Option.map_some', Option.some.injEq] at h1
          subst h1
          simp only [AList.mem_insert, not_or]
          exact ⟨Ne.symm hid, ha⟩
      | get id =>
        cases hl : w.m.sessions.lookup id with
        | none =>
          have : w1 = w := by simpa [step, GetSessionData, hl] using h1.symm
          rw [this]; exact ha
        | some p =>
          have hp := List.getElem?_eq_getElem (hwf.ptr_valid id p hl)
          have : w1 = w := by simpa [step, GetSessionData, hl, hp] using h1.symm
          rw [this]; exact ha
      | update id data =>
        cases hl : w.m.sessions.lookup id with
        | none =>
          have : w1 = w := by simpa [step, UpdateSessionData, hl] using h1.symm
          rw [this]; exact ha
        | some p =>
          have hp := List.getElem?_eq_getElem (hwf.ptr_valid id p hl)
          simp only [step, UpdateSessionData_present hl hp, Option.map_some',
            Option.some.injEq] at h1
          subst h1
          exact ha
      | clean i =>
        simp only [step] at h1
        cases hc : w.cleaners[i]? with
        | none =>
          rw [clean_none hc] at h1
          cases h1; exact ha
        | some c =>
          obtain ⟨sID, pc⟩ := c
          have hmem : (⟨sID, pc⟩ : Cleaner) ∈ w.cleaners := List.mem_iff_getElem?.mpr ⟨i, hc⟩
          cases pc with
          | lookup =>
            cases hl : w.m.sessions.lookup sID with
            | none =>
              rw [clean_lookup_absent hwf hc hl] at h1
              cases h1; exact ha
            | some p =>
              rw [clean_lookup_present hc hl] at h1
              cases h1; exact ha
          | tick p =>
            have hp := List.getElem?_eq_getElem (hwf.cur_valid _ hmem p (Or.inl rfl))
            rw [clean_tick hc hp] at h1
            cases h1; exact ha
          | compare p =>
            have hp := List.getElem?_eq_getElem (hwf.cur_valid _ hmem p (Or.inr rfl))
            rw [clean_compare hc hp] at h1
            cases h1; exact ha
          | delete =>
            rw [clean_delete hwf hc] at h1
            cases h1
            simp only [AList.mem_erase, not_and]
            exact fun _ => ha
          | done =>
            rw [clean_done hc] at h1
            cases h1; exact ha
    obtain ⟨w2, h2, ha2⟩ := ih hwf1 ha1 (fun b hb => hsched b (List.mem_cons_of_mem _ hb))
    exact ⟨w2, by simp [run, h1, h2], ha2⟩

/-! ## The view of a session after an update -/

theorem View.updated_alive (data : GoMap) (p c : Nat) (pc : PC)
    (hc : c < stepsToDelete pc) (hpc : pc ≠ PC.delete) :
    ((View.clean p)^[c] (View.updated data pc)).present = true ∧
    ((View.clean p)^[c] (View.updated data pc)).session =
      { Data := data, totalTimePerSession := (ticksTaken c pc : Nat) } := by
  cases pc with
  | lookup =>
    simp only [stepsToDelete] at hc
    interval_cases c <;>
      simp [View.clean, View.updated, ticksTaken, Function.iterate_succ_apply, addInt64, MAX_TIME]
  | tick q =>
    simp only [stepsToDelete] at hc
    interval_cases c <;>
      simp [View.clean, View.updated, ticksTaken, Function.iterate_succ_apply, addInt64, MAX_TIME]
  | compare q =>
    simp only [stepsToDelete] at hc
    interval_cases c <;>
      simp [View.clean, View.updated, ticksTaken, Function.iterate_succ_apply, addInt64, MAX_TIME]
  | delete => exact absurd rfl hpc
  | done => simp [stepsToDelete] at hc

theorem View.updated_expired (data : GoMap) (p c : Nat) (pc : PC)
    (hc : stepsToDelete pc ≤ c) (hpc : pc ≠ PC.delete) (hpc1 : pc ≠ PC.done) :
    (View.clean p)^[c] (View.updated data pc) = View.expired data := by
  obtain ⟨n, rfl⟩ := Nat.exists_eq_add_of_le hc
  rw [Nat.add_comm, Function.iterate_add_apply]
  have h : (View.clean p)^[stepsToDelete pc] (View.updated data pc) = View.expired data := by
    cases pc with
    | lookup =>
      simp [stepsToDelete, View.clean, View.updated, View.expired, Function.iterate_succ_apply,
        addInt64, MAX_TIME]
    | tick q =>
      simp [stepsToDelete, View.clean, View.updated, View.expired, Function.iterate_succ_apply,
        addInt64, MAX_TIME]
    | compare q =>
      simp [stepsToDelete, View.clean, View.updated, View.expired, Function.iterate_succ_apply,
        addInt64, MAX_TIME]
    | delete => exact absurd rfl hpc
    | done => exact absurd rfl hpc1
  rw [h, View.clean_expired]

/-- An update that lands while the cleaner is anywhere but between its
comparison and its delete gives the session the full window: with no further
update it stays a key, holding the new data, through the next four ticks of
its cleaner, the idle clock counting these ticks from 0, and the delete that
follows the fifth tick removes it. -/
theorem update_extends_life {w : World} {a : String} {i p : Nat} {v : View}
    (h : Sim w a i p v) (hpres : v.present = true) (hpc : v.pc ≠ PC.delete)
    (hpc1 : v.pc ≠ PC.done) (data : GoMap)
    (sched : List Action) (hsched : ∀ act ∈ sched, ¬ act.updates a ∧ ¬ act.reissues a) :
    ∃ w1 w2, UpdateSessionData w a data = some (none, w1) ∧
      run w1 sched = some w2 ∧
      (monitorSteps i sched < stepsToDelete v.pc →
        ticksTaken (monitorSteps i sched) v.pc ≤ 5 ∧
        sessionOf w2 a = some
          { Data := data, totalTimePerSession := (ticksTaken (monitorSteps i sched) v.pc : Nat) } ∧
        GetSessionData w2 a = some ((data, none), w2)) ∧
      (stepsToDelete v.pc ≤ monitorSteps i sched →
        a ∉ w2.m.sessions ∧
        GetSessionData w2 a = some ((none, some ErrSessionNotFound), w2) ∧
        ∀ data1, UpdateSessionData w2 a data1 = some (some ErrSessionNotFound, w2)) := by
  obtain ⟨present, session, pc⟩ := v
  simp only at hpres hpc hpc1 ⊢
  subst hpres
  have htbl := h.tbl
  simp only [if_true] at htbl
  have hsim1 : Sim _ a i p (View.updated data pc) := h.update_self data
  obtain ⟨w2, hrun, hsim2⟩ := hsim1.run sched (fun act hact => (hsched act hact).2)
  rw [View.run_untouched a i p sched (fun act hact => (hsched act hact).1)] at hsim2
  refine ⟨_, w2, UpdateSessionData_present htbl h.obj data, hrun, ?_, ?_⟩
  · intro hc
    obtain ⟨hp, hs⟩ := View.updated_alive data p _ pc hc hpc
    obtain ⟨-, h2, h3, -⟩ := hsim2.present hp
    rw [hs] at h2 h3
    refine ⟨?_, h2, h3⟩
    cases pc with
    | lookup => simp only [stepsToDelete, ticksTaken] at hc ⊢; omega
    | tick q => simp only [stepsToDelete, ticksTaken] at hc ⊢; omega
    | compare q => simp only [stepsToDelete, ticksTaken] at hc ⊢; omega
    | delete => simp [ticksTaken]
    | done => simp [ticksTaken]
  · intro hc
    rw [View.updated_expired data p _ pc hc hpc hpc1] at hsim2
    exact hsim2.absent rfl

/-- The invariant `Sim` holds of every session created under a fresh id, for
as long as the id is not issued again. -/
theorem Sim.of_history {w : World} (hwf : WF w) {a : String} (hfresh : Fresh w a)
    (sched : List Action) (hsched : ∀ act ∈ sched, ¬ Action.reissues a act) :
    ∃ w1 w2, CreateSession w (a, none) = some ((a, none), w1) ∧
      SessionCleaner.run w1 sched = some w2 ∧
      Sim w2 a w.cleaners.length w.heap.length
        (View.created.run a w.cleaners.length w.heap.length sched) := by
  obtain ⟨w2, hrun, hsim2⟩ := (Sim.of_create hwf hfresh).run sched hsched
  exact ⟨_, w2, CreateSession_ok hwf a, hrun, hsim2⟩

/-- C1: `GetSessionData(id)` returns the data of the session with no error
when `id` is a key of the table, and nil data with `ErrSessionNotFound` when it
is not, as on a fresh manager for any id; the state is the same afterwards. -/
theorem GetSessionData_spec (w : World) (id : String) :
    (WF w → id ∈ w.m.sessions →
      ∃ session, sessionOf w id = some session ∧
        GetSessionData w id = some ((session.Data, none), w)) ∧
    (id ∉ w.m.sessions →
      GetSessionData w id = some ((none, some ErrSessionNotFound), w)) ∧
    GetSessionData NewSessionManager id =
      some ((none, some ErrSessionNotFound), NewSessionManager) := by
  refine ⟨?_, ?_, rfl⟩
  · intro hwf hmem
    rw [← AList.lookup_isSome, Option.isSome_iff_exists] at hmem
    obtain ⟨p, hl⟩ := hmem
    have hlt := hwf.ptr_valid id p hl
    have hp : w.heap[p]? = some w.heap[p] := List.getElem?_eq_getElem hlt
    refine ⟨w.heap[p], ?_, GetSessionData_present hl hp⟩
    rw [sessionOf_of_lookup hl]
    exact hp
  · intro h
    exact GetSessionData_absent (AList.lookup_eq_none.mpr h)

/-- C2: on a key of the table `UpdateSessionData` returns no error; then
`GetSessionData` returns exactly the new data, the idle clock is 0, the table
is the same, and every other session keeps its data and clock.  And after
`CreateSession` of a fresh id, whatever the program does next short of
issuing the id again, a session that is still in the table returns from
`GetSessionData` the data written last, or empty data if none was. -/
theorem UpdateSessionData_spec (w : World) (hwf : WF w) :
    (∀ id data, id ∈ w.m.sessions →
      ∃ w1, UpdateSessionData w id data = some (none, w1) ∧
        GetSessionData w1 id = some ((data, none), w1) ∧
        sessionOf w1 id = some { Data := data, totalTimePerSession := 0 } ∧
        w1.m.sessions = w.m.sessions ∧
        ∀ id1, id1 ≠ id → sessionOf w1 id1 = sessionOf w id1) ∧
    (∀ a sched, Fresh w a → (∀ act ∈ sched, ¬ Action.reissues a act) →
      ∃ w1 w2, CreateSession w (a, none) = some ((a, none), w1) ∧
        run w1 sched = some w2 ∧
        (a ∈ w2.m.sessions →
          GetSessionData w2 a = some ((lastWritten a (some ∅) sched, none), w2))) := by
  constructor
  · intro id data hid
    rw [← AList.lookup_isSome, Option.isSome_iff_exists] at hid
    obtain ⟨p, hl⟩ := hid
    have hlt := hwf.ptr_valid id p hl
    have hp : w.heap[p]? = some w.heap[p] := List.getElem?_eq_getElem hlt
    have hset : (w.heap.set p { Data := data, totalTimePerSession := 0 })[p]? =
        some { Data := data, totalTimePerSession := 0 } := List.getElem?_set_self hlt
    refine ⟨_, UpdateSessionData_present hl hp data, ?_, ?_, rfl, ?_⟩
    · simp only [GetSessionData, hl, hset]
    · simp only [sessionOf, hl, Option.some_bind]
      exact hset
    · intro id1 hid1
      cases hl1 : w.m.sessions.lookup id1 with
      | none => simp [sessionOf, hl1]
      | some q =>
        have hq : p ≠ q := fun e => hid1 (hwf.ptr_inj id1 id q hl1 (e ▸ hl))
        simp only [sessionOf, hl1, Option.some_bind]
        exact List.getElem?_set_ne hq
  · intro a sched hfresh hsched
    have hsim := Sim.of_create hwf hfresh
    obtain ⟨w2, hrun, hsim2⟩ := hsim.run sched hsched
    refine ⟨_, w2, CreateSession_ok hwf a, hrun, ?_⟩
    intro hmem
    change Sim w2 a _ _ (View.created.run a _ _ sched) at hsim2
    cases hpres : (View.created.run a w.cleaners.length w.heap.length sched).present with
    | false => exact absurd hmem (hsim2.absent hpres).1
    | true =>
      have hdata := (View.run_data a _ _ sched View.created hpres).2
      have hget := (hsim2.present hpres).2.2.1
      rw [hdata] at hget
      exact hget

/-- C3: `UpdateSessionData` on an id that is not a key returns
`ErrSessionNotFound` and leaves the whole state as it was, and it returns an
error only when the id is not a key. -/
theorem UpdateSessionData_absent (w : World) (id : String) (data : GoMap) :
    (id ∉ w.m.sessions →
      UpdateSessionData w id data = some (some ErrSessionNotFound, w)) ∧
    (∀ err w1, UpdateSessionData w id data = some (some err, w1) →
      id ∉ w.m.sessions ∧ err = ErrSessionNotFound ∧ w1 = w) := by
  constructor
  · intro h
    have hl := AList.lookup_eq_none.mpr h
    simp [UpdateSessionData, hl]
  · intro err w1 h
    unfold UpdateSessionData at h
    cases hl : w.m.sessions.lookup id with
    | none =>
      simp only [hl, Option.some.injEq, Prod.mk.injEq] at h
      exact ⟨AList.lookup_eq_none.mp hl, h.1.symm, h.2.symm⟩
    | some p =>
      simp only [hl] at h
      cases hp : w.heap[p]? with
      | none => simp [hp] at h
      | some session => simp [hp] at h

/-- C6: a session created under a fresh id and never updated, whatever else
the program does meanwhile, is still a key with empty data, readable and
updatable, as long as its cleaner has taken fewer than 16 steps, which covers
its first four ticks (a loop turn is three steps: lookup, tick and increment,
compare), with the idle clock equal to the ticks taken; the cleaner's 16th
step, the delete that follows the increment and comparison of the 5th tick,
removes it, and from then on both operations return `ErrSessionNotFound`. -/
theorem untouched_session_expires (w : World) (hwf : WF w) (a : String) (hfresh : Fresh w a)
    (sched : List Action) (hsched : ∀ act ∈ sched, ¬ act.updates a ∧ ¬ act.reissues a) :
    ∃ w1 w2, CreateSession w (a, none) = some ((a, none), w1) ∧
      run w1 sched = some w2 ∧
      (monitorSteps w.cleaners.length sched < 16 →
        a ∈ w2.m.sessions ∧
        sessionOf w2 a = some
          { Data := some ∅
            totalTimePerSession := ((monitorSteps w.cleaners.length sched + 1) / 3 : Nat) } ∧
        GetSessionData w2 a = some ((some ∅, none), w2) ∧
        ∀ data, ∃ w3, UpdateSessionData w2 a data = some (none, w3)) ∧
      (16 ≤ monitorSteps w.cleaners.length sched →
        a ∉ w2.m.sessions ∧
        GetSessionData w2 a = some ((none, some ErrSessionNotFound), w2) ∧
        ∀ data, UpdateSessionData w2 a data = some (some ErrSessionNotFound, w2)) := by
  have hsim := Sim.of_create hwf hfresh
  obtain ⟨w2, hrun, hsim2⟩ := hsim.run sched (fun act hact => (hsched act hact).2)
  have hview := View.run_untouched a w.cleaners.length w.heap.length sched
    (fun act hact => (hsched act hact).1) View.created
  change Sim w2 a _ _ (View.created.run a _ _ sched) at hsim2
  rw [hview] at hsim2
  refine ⟨_, w2, CreateSession_ok hwf a, hrun, ?_, ?_⟩
  · intro hc
    obtain ⟨hp, hs⟩ := View.created_alive w.heap.length _ hc
    obtain ⟨h1, h2, h3, h4⟩ := hsim2.present hp
    rw [hs] at h2 h3
    exact ⟨h1, h2, h3, h4⟩
  · intro hc
    rw [View.created_expired w.heap.length _ hc] at hsim2
    exact hsim2.absent rfl

/-- C4: when the generator succeeds with an id that is not yet a key,
`CreateSession` returns it with no error; afterwards the id maps to a session
with empty data and idle clock 0, the table has exactly one more key, every
session that was there is still there and unchanged, no other key appeared,
an immediate `GetSessionData` returns empty data with no error, and one
cleaner was started for the id. -/
theorem CreateSession_spec (w : World) (hwf : WF w) (id : String) (hid : id ∉ w.m.sessions) :
    ∃ w1, CreateSession w (id, none) = some ((id, none), w1) ∧
      sessionOf w1 id = some { Data := some ∅, totalTimePerSession := 0 } ∧
      w1.m.sessions.keys.length = w.m.sessions.keys.length + 1 ∧
      (∀ id1, id1 ∈ w.m.sessions →
        id1 ∈ w1.m.sessions ∧ sessionOf w1 id1 = sessionOf w id1) ∧
      (∀ id1, id1 ∈ w1.m.sessions → id1 = id ∨ id1 ∈ w.m.sessions) ∧
      GetSessionData w1 id = some ((some ∅, none), w1) ∧
      w1.wg = w.wg + 1 ∧
      w1.cleaners = w.cleaners ++ [{ sID := id, pc := PC.lookup }] := by
  have hl : (w.m.sessions.insert id w.heap.length).lookup id = some w.heap.length :=
    AList.lookup_insert _
  have hobj : (w.heap ++ [({ Data := some ∅, totalTimePerSession := 0 } : Session)])[
      w.heap.length]? = some { Data := some ∅, totalTimePerSession := 0 } :=
    List.getElem?_concat_length _ _
  refine ⟨_, CreateSession_ok hwf id, ?_, ?_, ?_, ?_, ?_, rfl, rfl⟩
  · simp only [sessionOf, hl, Option.some_bind]
    exact hobj
  · show (w.m.sessions.insert id w.heap.length).keys.length = _
    rw [AList.keys_insert, List.erase_of_not_mem (fun h => hid (AList.mem_keys.mpr h))]
    rfl
  · intro id1 hid1
    have hne : id1 ≠ id := fun e => hid (e ▸ hid1)
    refine ⟨(AList.mem_insert _).mpr (Or.inr hid1), ?_⟩
    rw [← AList.lookup_isSome, Option.isSome_iff_exists] at hid1
    obtain ⟨q, hq⟩ := hid1
    have hq1 : (w.m.sessions.insert id w.heap.length).lookup id1 = some q := by
      rw [AList.lookup_insert_ne hne]; exact hq
    simp only [sessionOf, hq, hq1, Option.some_bind]
    exact List.getElem?_append_left (hwf.ptr_valid id1 q hq)
  · intro id1 hid1
    exact (AList.mem_insert _).mp hid1
  · simp only [GetSessionData, hl, hobj]

/-- C5: when the identifier generator fails with `e`, `CreateSession` returns
the empty id with `e` and the state, with its table, wait group and cleaner
goroutines, is as before. -/
theorem CreateSession_generator_error (w : World) (sessionID : String) (e : Error) :
    CreateSession w (sessionID, some e) = some (("", some e), w) := by
  rfl

/-- C9: a cleaner that finds its id absent at its check returns at once,
leaving the table and every session object as they were, without a panic; a
cleaner at its delete removes its id, which is a no-op when the id is already
absent, leaves every other key and session as it was, and returns; a cleaner
that has returned never changes the state again; and an id that is no key
stays no key, so it cannot be removed a second time. -/
theorem SessionCleaner_removal (w : World) (hwf : WF w) (i : Nat) (sID : String) :
    (w.cleaners[i]? = some ⟨sID, PC.lookup⟩ → sID ∉ w.m.sessions →
      ∃ w1, SessionCleanerStep w i = some w1 ∧ w1.m = w.m ∧ w1.heap = w.heap ∧
        w1.cleaners[i]? = some ⟨sID, PC.done⟩) ∧
    (w.cleaners[i]? = some ⟨sID, PC.delete⟩ →
      ∃ w1, SessionCleanerStep w i = some w1 ∧ sID ∉ w1.m.sessions ∧ w1.heap = w.heap ∧
        w1.cleaners[i]? = some ⟨sID, PC.done⟩ ∧
        (sID ∉ w.m.sessions → w1.m = w.m) ∧
        ∀ id, id ≠ sID →
          w1.m.sessions.lookup id = w.m.sessions.lookup id ∧ sessionOf w1 id = sessionOf w id) ∧
    (w.cleaners[i]? = some ⟨sID, PC.done⟩ →
      ∀ n, run w (List.replicate n (Action.clean i)) = some w) ∧
    (sID ∉ w.m.sessions → ∀ sched, (∀ act ∈ sched, ¬ Action.reissues sID act) →
      ∃ w1, run w sched = some w1 ∧ sID ∉ w1.m.sessions) := by
  refine ⟨?_, ?_, ?_, ?_⟩
  · intro hc habs
    have hi := (List.getElem?_eq_some.mp hc).1
    refine ⟨_, clean_lookup_absent hwf hc (AList.lookup_eq_none.mpr habs), rfl, rfl, ?_⟩
    exact List.getElem?_set_self hi
  · intro hc
    have hi := (List.getElem?_eq_some.mp hc).1
    refine ⟨_, clean_delete hwf hc, ?_, rfl, List.getElem?_set_self hi, ?_, ?_⟩
    · show sID ∉ w.m.sessions.erase sID
      simp [AList.mem_erase]
    · intro habs
      show (⟨w.m.sessions.erase sID⟩ : SessionManager) = w.m
      rw [erase_absent _ habs]
    · intro id hid
      have hl : (w.m.sessions.erase sID).lookup id = w.m.sessions.lookup id :=
        AList.lookup_erase_ne hid
      refine ⟨hl, ?_⟩
      simp only [sessionOf, hl]
  · intro hc n
    induction n with
    | zero => rfl
    | succ n ih =>
      simp only [List.replicate_succ, run, step, clean_done hc, Option.some_bind]
      exact ih
  · intro habs sched hsched
    exact absent_stays_absent hwf habs sched hsched

/-- C7: the run on which the code fails the claim.  Session `"a"` is created
and its cleaner runs through the fifth increment and the comparison, so that
it stands before its delete.  A first update succeeds and leaves the session a
key with idle clock 0.  A second update on this live session, whose clock is
0 < 5, succeeds as well, and the cleaner's very next step deletes the session:
no tick has passed since the update, and `GetSessionData` returns
`ErrSessionNotFound`. -/
theorem update_not_extended_in_delete_window :
    run NewSessionManager (createThenClean 15) =
      some (single { Data := some ∅, totalTimePerSession := 5 } true 1 PC.delete) ∧
    UpdateSessionData (single { Data := some ∅, totalTimePerSession := 5 } true 1 PC.delete)
        "a" websiteX =
      some (none, single { Data := websiteX, totalTimePerSession := 0 } true 1 PC.delete) ∧
    "a" ∈ (single { Data := websiteX, totalTimePerSession := 0 } true 1 PC.delete).m.sessions ∧
    sessionOf (single { Data := websiteX, totalTimePerSession := 0 } true 1 PC.delete) "a" =
      some { Data := websiteX, totalTimePerSession := 0 } ∧
    UpdateSessionData (single { Data := websiteX, totalTimePerSession := 0 } true 1 PC.delete)
        "a" websiteY =
      some (none, single { Data := websiteY, totalTimePerSession := 0 } true 1 PC.delete) ∧
    SessionCleanerStep (single { Data := websiteY, totalTimePerSession := 0 } true 1 PC.delete) 0 =
      some (single { Data := websiteY, totalTimePerSession := 0 } false 0 PC.done) ∧
    GetSessionData (single { Data := websiteY, totalTimePerSession := 0 } false 0 PC.done) "a" =
      some ((none, some ErrSessionNotFound),
        single { Data := websiteY, totalTimePerSession := 0 } false 0 PC.done) := by
  refine ⟨rfl, rfl, by decide, rfl, rfl, rfl, rfl⟩

/-- C8: the interleaving on which the code fails the claim.  Session `"a"` is
created and its cleaner takes 15 steps: four full loop turns, then the lookup,
the fifth increment and the comparison, which finds the idle clock at
`MAX_TIME`.  Before the cleaner's delete, `UpdateSessionData` succeeds and
resets the clock to 0.  The cleaner's next step deletes the session all the
same, and the update is lost. -/
theorem update_lost_between_compare_and_delete :
    run NewSessionManager (createThenClean 14) =
      some (single { Data := some ∅, totalTimePerSession := 5 } true 1 (PC.compare 0)) ∧
    SessionCleanerStep
        (single { Data := some ∅, totalTimePerSession := 5 } true 1 (PC.compare 0)) 0 =
      some (single { Data := some ∅, totalTimePerSession := 5 } true 1 PC.delete) ∧
    UpdateSessionData (single { Data := some ∅, totalTimePerSession := 5 } true 1 PC.delete)
        "a" websiteX =
      some (none, single { Data := websiteX, totalTimePerSession := 0 } true 1 PC.delete) ∧
    SessionCleanerStep (single { Data := websiteX, totalTimePerSession := 0 } true 1 PC.delete) 0 =
      some (single { Data := websiteX, totalTimePerSession := 0 } false 0 PC.done) ∧
    "a" ∉ (single { Data := websiteX, totalTimePerSession := 0 } false 0 PC.done).m.sessions ∧
    UpdateSessionData (single { Data := websiteX, totalTimePerSession := 0 } false 0 PC.done)
        "a" websiteY =
      some (some ErrSessionNotFound,
        single { Data := websiteX, totalTimePerSession := 0 } false 0 PC.done) := by
  refine ⟨rfl, rfl, rfl, rfl, by decide, rfl⟩

/-! ## Instances on concrete states -/

theorem fresh_a : Fresh NewSessionManager "a" :=
  ⟨by decide, by intro c hc; simp [NewSessionManager] at hc⟩

theorem WF_single_created :
    WF (single { Data := some ∅, totalTimePerSession := 0 } true 1 PC.lookup) :=
  Reachable.wf ⟨createThenClean 0, rfl⟩

theorem WF_single_delete :
    WF (single { Data := some ∅, totalTimePerSession := 5 } true 1 PC.delete) :=
  Reachable.wf ⟨createThenClean 15, rfl⟩

theorem WF_single_updated :
    WF (single { Data := websiteX, totalTimePerSession := 3 } true 1 PC.lookup) :=
  Reachable.wf ⟨createThenClean 9 ++ Action.update "a" websiteX ::
    List.replicate 9 (Action.clean 0), rfl⟩

/-- The scenario of the test: create, three ticks, update, three more ticks,
and the data is the updated one with the idle clock at 3; without a further
update the session is gone five ticks later. -/
theorem scenario_update_after_three_ticks :
    run NewSessionManager (createThenClean 9 ++ Action.update "a" websiteX ::
        List.replicate 9 (Action.clean 0)) =
      some (single { Data := websiteX, totalTimePerSession := 3 } true 1 PC.lookup) ∧
    GetSessionData (single { Data := websiteX, totalTimePerSession := 3 } true 1 PC.lookup)
        "a" =
      some ((websiteX, none),
        single { Data := websiteX, totalTimePerSession := 3 } true 1 PC.lookup) ∧
    run (single { Data := websiteX, totalTimePerSession := 3 } true 1 PC.lookup)
        (List.replicate 15 (Action.clean 0)) =
      some (single { Data := websiteX, totalTimePerSession := 5 } false 0 PC.done) ∧
    GetSessionData (single { Data := websiteX, totalTimePerSession := 5 } false 0 PC.done) "a" =
      some ((none, some ErrSessionNotFound),
        single { Data := websiteX, totalTimePerSession := 5 } false 0 PC.done) :=
  ⟨rfl, rfl, rfl, rfl⟩

theorem replicate_clean_untouched (a : String) (n i : Nat) :
    ∀ act ∈ List.replicate n (Action.clean i), ¬ act.updates a ∧ ¬ act.reissues a := by
  intro act hact
  rw [(List.mem_replicate.mp hact).2]
  exact ⟨fun h => h, fun h => h⟩

/-- The full window after an update, on the state of the test scenario: the
session created at the start and updated after three ticks is still readable
three ticks after a second update. -/
theorem update_extends_life_instance :
    ∃ w1 w2,
      UpdateSessionData (single { Data := websiteX, totalTimePerSession := 3 } true 1 PC.lookup)
        "a" websiteY = some (none, w1) ∧
      run w1 (List.replicate 9 (Action.clean 0)) = some w2 ∧
      sessionOf w2 "a" = some { Data := websiteY, totalTimePerSession := 3 } ∧
      GetSessionData w2 "a" = some ((websiteY, none), w2) := by
  obtain ⟨u1, u2, h1, h2, hsim⟩ := Sim.of_history WF_NewSessionManager fresh_a
    (Action.update "a" websiteX :: List.replicate 9 (Action.clean 0))
    (by
      intro act hact h
      cases act with
      | create gen => simp at hact
      | get id => exact h
      | update id data => exact h
      | clean j => exact h)
  have e1 : u1 = single { Data := some ∅, totalTimePerSession := 0 } true 1 PC.lookup :=
    (Prod.mk.inj (Option.some.inj h1)).2.symm
  subst e1
  have hrun : run (single { Data := some ∅, totalTimePerSession := 0 } true 1 PC.lookup)
      (Action.update "a" websiteX :: List.replicate 9 (Action.clean 0)) =
      some (single { Data := websiteX, totalTimePerSession := 3 } true 1 PC.lookup) := rfl
  have e2 : u2 = single { Data := websiteX, totalTimePerSession := 3 } true 1 PC.lookup := by
    rw [hrun] at h2
    exact (Option.some.inj h2).symm
  subst e2
  have hview : View.created.run "a" NewSessionManager.cleaners.length
      NewSessionManager.heap.length
      (Action.update "a" websiteX :: List.replicate 9 (Action.clean 0)) =
      { present := true, session := { Data := websiteX, totalTimePerSession := 3 },
        pc := PC.lookup } := by
    simp [View.run, View.step, View.clean, View.created, NewSessionManager, List.replicate,
      addInt64, MAX_TIME]
  rw [hview] at hsim
  obtain ⟨w1, w2, k1, k2, k3, -⟩ := update_extends_life hsim rfl (by simp) (by simp) websiteY
    (List.replicate 9 (Action.clean 0)) (replicate_clean_untouched "a" 9 0)
  exact ⟨w1, w2, k1, k2, (k3 (by decide)).2.1, (k3 (by decide)).2.2⟩

theorem GetSessionData_spec_witness :
    (∃ session,
      sessionOf (single { Data := websiteX, totalTimePerSession := 3 } true 1 PC.lookup) "a" =
        some session ∧
      GetSessionData (single { Data := websiteX, totalTimePerSession := 3 } true 1 PC.lookup)
          "a" =
        some ((session.Data, none),
          single { Data := websiteX, totalTimePerSession := 3 } true 1 PC.lookup)) ∧
    GetSessionData (single { Data := websiteX, totalTimePerSession := 3 } true 1 PC.lookup) "b" =
      some ((none, some ErrSessionNotFound),
        single { Data := websiteX, totalTimePerSession := 3 } true 1 PC.lookup) :=
  ⟨(GetSessionData_spec _ "a").1 WF_single_updated (by decide),
   (GetSessionData_spec _ "b").2.1 (by decide)⟩

theorem UpdateSessionData_spec_witness :
    (∃ w1, UpdateSessionData
        (single { Data := some ∅, totalTimePerSession := 0 } true 1 PC.lookup) "a" websiteX =
        some (none, w1) ∧
      GetSessionData w1 "a" = some ((websiteX, none), w1) ∧
      sessionOf w1 "a" = some { Data := websiteX, totalTimePerSession := 0 }) ∧
    (∃ w1 w2, CreateSession NewSessionManager ("a", none) = some (("a", none), w1) ∧
      run w1 [Action.clean 0, Action.update "a" websiteX, Action.clean 0, Action.clean 0,
        Action.update "a" websiteY, Action.get "a"] = some w2 ∧
      GetSessionData w2 "a" = some ((websiteY, none), w2)) := by
  constructor
  · obtain ⟨w1, h1, h2, h3, -⟩ :=
      (UpdateSessionData_spec _ WF_single_created).1 "a" websiteX (by decide)
    exact ⟨w1, h1, h2, h3⟩
  · obtain ⟨w1, w2, h1, h2, h3⟩ :=
      (UpdateSessionData_spec NewSessionManager WF_NewSessionManager).2 "a"
        [Action.clean 0, Action.update "a" websiteX, Action.clean 0, Action.clean 0,
          Action.update "a" websiteY, Action.get "a"] fresh_a
        (by
          intro act hact h
          cases act with
          | create gen => simp at hact
          | get id => exact h
          | update id data => exact h
          | clean j => exact h)
    have e1 : w1 = single { Data := some ∅, totalTimePerSession := 0 } true 1 PC.lookup :=
      (Prod.mk.inj (Option.some.inj h1)).2.symm
    subst e1
    have hrun : run (single { Data := some ∅, totalTimePerSession := 0 } true 1 PC.lookup)
        [Action.clean 0, Action.update "a" websiteX, Action.clean 0, Action.clean 0,
          Action.update "a" websiteY, Action.get "a"] =
        some (single { Data := websiteY, totalTimePerSession := 0 } true 1 PC.lookup) := rfl
    have e2 : w2 = single { Data := websiteY, totalTimePerSession := 0 } true 1 PC.lookup := by
      rw [hrun] at h2
      exact (Option.some.inj h2).symm
    subst e2
    exact ⟨_, _, h1, h2, h3 (by decide)⟩

theorem UpdateSessionData_absent_witness :
    UpdateSessionData NewSessionManager "a" websiteX =
      some (some ErrSessionNotFound, NewSessionManager) ∧
    "a" ∉ (single { Data := websiteX, totalTimePerSession := 0 } false 0 PC.done).m.sessions :=
  ⟨(UpdateSessionData_absent NewSessionManager "a" websiteX).1 (by decide),
   ((UpdateSessionData_absent
      (single { Data := websiteX, totalTimePerSession := 0 } false 0 PC.done) "a" websiteY).2
      ErrSessionNotFound _ rfl).1⟩

theorem CreateSession_spec_witness :
    ∃ w1, CreateSession NewSessionManager ("a", none) = some (("a", none), w1) ∧
      sessionOf w1 "a" = some { Data := some ∅, totalTimePerSession := 0 } ∧
      w1.m.sessions.keys.length = 1 ∧
      GetSessionData w1 "a" = some ((some ∅, none), w1) := by
  obtain ⟨w1, h1, h2, h3, -, -, h4, -⟩ :=
    CreateSession_spec NewSessionManager WF_NewSessionManager "a" (by decide)
  exact ⟨w1, h1, h2, h3, h4⟩

theorem untouched_session_expires_witness :
    (∃ w1 w2, CreateSession NewSessionManager ("a", none) = some (("a", none), w1) ∧
      run w1 (List.replicate 13 (Action.clean 0)) = some w2 ∧
      sessionOf w2 "a" = some { Data := some ∅, totalTimePerSession := 4 }) ∧
    (∃ w1 w2, CreateSession NewSessionManager ("a", none) = some (("a", none), w1) ∧
      run w1 (List.replicate 16 (Action.clean 0)) = some w2 ∧
      GetSessionData w2 "a" = some ((none, some ErrSessionNotFound), w2)) := by
  constructor
  · obtain ⟨w1, w2, h1, h2, h3, -⟩ :=
      untouched_session_expires NewSessionManager WF_NewSessionManager "a" fresh_a
        (List.replicate 13 (Action.clean 0)) (replicate_clean_untouched "a" 13 0)
    exact ⟨w1, w2, h1, h2, (h3 (by decide)).2.1⟩
  · obtain ⟨w1, w2, h1, h2, -, h3⟩ :=
      untouched_session_expires NewSessionManager WF_NewSessionManager "a" fresh_a
        (List.replicate 16 (Action.clean 0)) (replicate_clean_untouched "a" 16 0)
    exact ⟨w1, w2, h1, h2, (h3 (by decide)).2.1⟩

theorem SessionCleaner_removal_witness :
    (∃ w1, SessionCleanerStep
        (single { Data := some ∅, totalTimePerSession := 5 } true 1 PC.delete) 0 = some w1 ∧
      "a" ∉ w1.m.sessions ∧ w1.cleaners[0]? = some ⟨"a", PC.done⟩) ∧
    (∃ w1, run NewSessionManager [Action.create ("b", none), Action.clean 0] = some w1 ∧
      "a" ∉ w1.m.sessions) := by
  constructor
  · obtain ⟨w1, h1, h2, -, h3, -⟩ :=
      (SessionCleaner_removal _ WF_single_delete 0 "a").2.1 rfl
    exact ⟨w1, h1, h2, h3⟩
  · exact (SessionCleaner_removal NewSessionManager WF_NewSessionManager 0 "a").2.2.2
      (by decide) [Action.create ("b", none), Action.clean 0]
      (by intro act hact; simp at hact; rcases hact with h | h <;> subst h
          · exact fun h => absurd h.2 (by decide)
          · exact fun h => h)

end SessionCleaner

namespace LimitServiceTime

theorem addInt64_exact (x y : Int) (hlo : -9223372036854775808 ≤ x + y)
    (hhi : x + y < 9223372036854775808) : addInt64 x y = x + y := by
  unfold addInt64
  omega

/-- A user over the quota is refused: the process is not run and the record
stays as it is. -/
theorem HandleRequest_over (elapsed : Int) (u : User) (hp : u.IsPremium = false)
    (hu : u.TimeUsed > 10) : HandleRequest elapsed u = { ret := false, ran := false, u := u } := by
  simp [HandleRequest, hp, hu]

theorem userAfter_over (u : User) (hp : u.IsPremium = false) (hu : u.TimeUsed > 10)
    (requests : List Int) : userAfter u requests = u := by
  induction requests with
  | nil => rfl
  | cons elapsed rest ih =>
    simp only [userAfter, List.foldl_cons, HandleRequest_over elapsed u hp hu] at ih ⊢
    exact ih

/-- C10: for a non-premium user whose `TimeUsed` is a Go `int`, and a process
measured at `elapsed` whole seconds (at most what a `time.Duration` can hold),
`HandleRequest` returns true exactly when `TimeUsed + elapsed` is at most 10;
over the quota before the call, the process is not run, `TimeUsed` is unchanged
and the result is false; otherwise the process runs and `TimeUsed` grows by
`elapsed`; and after a call that returned false every later call returns
false.  For a premium user the process runs, the result is true and the record
is unchanged. -/
theorem HandleRequest_quota (u : User) (elapsed : Int)
    (hu : -9223372036854775808 ≤ u.TimeUsed ∧ u.TimeUsed < 9223372036854775808)
    (he : 0 ≤ elapsed ∧ elapsed ≤ 9223372037) :
    (u.IsPremium = false →
      ((HandleRequest elapsed u).ret = true ↔ u.TimeUsed + elapsed ≤ 10) ∧
      (u.TimeUsed > 10 → HandleRequest elapsed u = { ret := false, ran := false, u := u }) ∧
      (u.TimeUsed ≤ 10 →
        (HandleRequest elapsed u).ran = true ∧
        (HandleRequest elapsed u).u = { u with TimeUsed := u.TimeUsed + elapsed }) ∧
      ((HandleRequest elapsed u).ret = false →
        ∀ (requests : List Int) (later : Int),
          HandleRequest later (userAfter (HandleRequest elapsed u).u requests) =
            { ret := false, ran := false, u := (HandleRequest elapsed u).u })) ∧
    (u.IsPremium = true → HandleRequest elapsed u = { ret := true, ran := true, u := u }) := by
  constructor
  · intro hp
    by_cases hover : u.TimeUsed > 10
    · have hcall := HandleRequest_over elapsed u hp hover
      refine ⟨?_, fun _ => hcall, fun hle => absurd hover (not_lt.mpr hle), ?_⟩
      · rw [hcall]
        constructor
        · intro h; cases h
        · intro h; omega
      · intro _ requests later
        rw [hcall]
        simp only []
        rw [userAfter_over u hp hover]
        exact HandleRequest_over later u hp hover
    · have hadd : addInt64 u.TimeUsed elapsed = u.TimeUsed + elapsed :=
        addInt64_exact _ _ (by omega) (by omega)
      by_cases hsum : u.TimeUsed + elapsed > 10
      · have hcall : HandleRequest elapsed u =
            { ret := false, ran := true, u := { u with TimeUsed := u.TimeUsed + elapsed } } := by
          simp [HandleRequest, hp, hover, hadd, hsum]
        refine ⟨?_, fun h => absurd h hover, fun _ => ?_, ?_⟩
        · rw [hcall]
          constructor
          · intro h; cases h
          · intro h; omega
        · rw [hcall]
          exact ⟨rfl, rfl⟩
        · intro _ requests later
          rw [hcall]
          simp only []
          have hp1 : ({ u with TimeUsed := u.TimeUsed + elapsed } : User).IsPremium = false := hp
          have hu1 : ({ u with TimeUsed := u.TimeUsed + elapsed } : User).TimeUsed > 10 := hsum
          rw [userAfter_over _ hp1 hu1]
          exact HandleRequest_over later _ hp1 hu1
      · have hcall : HandleRequest elapsed u =
            { ret := true, ran := true, u := { u with TimeUsed := u.TimeUsed + elapsed } } := by
          simp [HandleRequest, hp, hover, hadd, hsum]
        refine ⟨?_, fun h => absurd h hover, fun _ => ?_, ?_⟩
        · rw [hcall]
          constructor
          · intro _; omega
          · intro _; rfl
        · rw [hcall]
          exact ⟨rfl, rfl⟩
        · intro h
          rw [hcall] at h
          cases h
  · intro hp
    simp [HandleRequest, hp]

theorem HandleRequest_quota_witness :
    HandleRequest 3 { ID := 1, IsPremium := false, TimeUsed := 8 } =
      { ret := false, ran := true, u := { ID := 1, IsPremium := false, TimeUsed := 11 } } ∧
    HandleRequest 3 { ID := 2, IsPremium := true, TimeUsed := 8 } =
      { ret := true, ran := true, u := { ID := 2, IsPremium := true, TimeUsed := 8 } } ∧
    ((HandleRequest 2 { ID := 1, IsPremium := false, TimeUsed := 8 }).ret = true ↔
      (8 : Int) + 2 ≤ 10) :=
  ⟨by decide,
   (HandleRequest_quota { ID := 2, IsPremium := true, TimeUsed := 8 } 3
      (by decide) (by decide)).2 rfl,
   ((HandleRequest_quota { ID := 1, IsPremium := false, TimeUsed := 8 } 2
      (by decide) (by decide)).1 rfl).1⟩

end LimitServiceTime
